import Mathlib

/-!
Verification of the dymo-creator label generator.

This file gives a shallow embedding of the selection-state reconciliation
logic of `app.py`, of the data helpers in `utils.py`, and of the batch CLI
`generate_dymo_files.py`, and proves the specified properties about them.

Modelling conventions:
* pandas DataFrames read with `dtype=str` and `.fillna("")` are lists of
  rows; a row is an insertion-ordered association list from column name to
  string value.
* Python dicts (the `selection_override` map and the per-interaction manual
  edit map) are insertion-ordered association lists with pairwise distinct
  keys; distinctness is carried as a `Nodup` hypothesis where a proof needs
  it.
* `sys.exit(message)` terminates the process with exit status 1,
  `sys.exit(0)` with status 0; CLI control flow is modelled as a function
  into an outcome type carrying the exit status.
-/

namespace Dymo

/-- A data row: association list from column name to string value
(a pandas row loaded with `dtype=str` and `.fillna("")`). -/
abbrev Row := List (String × String)

/-- Value of column `c` in row `r`; a missing column reads as `""`. -/
def getCol (r : Row) (c : String) : String := (r.lookup c).getD ""

/-- A product record as seen by the selection logic of `app.py`: only the
stable key (column `Barcode`) and the `Group` column take part in the
selection bookkeeping. -/
structure Record where
  barcode : String
  group : String
deriving Repr, DecidableEq

/-- The `selection_override` dict (and likewise the manual-edit dict built on
form submit): Python dict from Barcode to bool, modelled as an
insertion-ordered association list. -/
abbrev OverrideMap := List (String × Bool)

/-! ### Selection state: final selection build (`app.py` lines 497-519)

The app stores the working dataset as a DataFrame with a boolean `Selected`
column.  We model that state as a list of `(Record, Bool)` pairs.  The final
build starts from the group baseline, then walks the `selection_override`
dict setting the first row matching each Barcode, then walks the manual
edits the same way (`matching_rows.index[0]` updates the first match; a key
with no matching row is skipped). -/

/-- One step of the override-application loop in `app.py`:
`df.at[matching_rows.index[0], 'Selected'] = value` sets the `Selected`
value of the first row whose `Barcode` equals `barcode`; if no row matches,
the state is unchanged. -/
def setFirst (barcode : String) (value : Bool) : List (Record × Bool) → List (Record × Bool)
  | [] => []
  | (r, b) :: rest =>
    if r.barcode == barcode then (r, value) :: rest
    else (r, b) :: setFirst barcode value rest

/-- Walk an override/manual dict in insertion order, applying each entry to
the selection state (`app.py` lines 504-509 and 512-517). -/
def applyOverrideMap (state : List (Record × Bool)) (m : OverrideMap) : List (Record × Bool) :=
  m.foldl (fun acc kv => setFirst kv.1 kv.2 acc) state

/-- The group-baseline selection state: `df_full['Group'].isin(selected_groups)`
(`app.py` lines 353-365). -/
def baselineState (records : List Record) (selectedGroups : List String) :
    List (Record × Bool) :=
  records.map (fun r => (r, selectedGroups.contains r.group))

/-- PHASE 1 final selection build of `app.py` (lines 497-519): group baseline,
then stored overrides, then current manual selections (highest priority). -/
def buildFinalSelection (records : List Record) (selectedGroups : List String)
    (override manual : OverrideMap) : List (Record × Bool) :=
  applyOverrideMap (applyOverrideMap (baselineState records selectedGroups) override) manual

/-- Read the resolved selection of the record keyed `barcode` from a
selection state (first matching row, mirroring `matching_rows.index[0]`). -/
def getSelected (state : List (Record × Bool)) (barcode : String) : Option Bool :=
  (state.find? (fun p => p.1.barcode == barcode)).map Prod.snd

/-! ### Basic association-list lemmas -/

theorem lookup_eq_none_of_not_mem_keys {β : Type} {l : List (String × β)} {k : String}
    (h : k ∉ l.map Prod.fst) : l.lookup k = none := by
  induction l with
  | nil => rfl
  | cons p rest ih =>
    simp only [List.map_cons, List.mem_cons, not_or] at h
    have hk : (k == p.1) = false := by
      simp [beq_eq_false_iff_ne]
      exact fun he => h.1 he
    cases p with
    | mk a b =>
      simp only [List.lookup]
      simp only [List.map_cons] at hk
      rw [hk]
      exact ih h.2

theorem mem_of_lookup_eq_some {β : Type} {l : List (String × β)} {k : String} {v : β}
    (h : l.lookup k = some v) : (k, v) ∈ l := by
  induction l with
  | nil => simp [List.lookup] at h
  | cons p rest ih =>
    cases p with
    | mk a b =>
      simp only [List.lookup] at h
      by_cases hk : k = a
      · subst hk
        simp at h
        subst h
        exact List.mem_cons_self _ _
      · have : (k == a) = false := by simp [beq_eq_false_iff_ne]; exact hk
        rw [this] at h
        exact List.mem_cons_of_mem _ (ih h)

/-- Looking a key up in a list filtered by a predicate on keys alone. -/
theorem lookup_filter_key {β : Type} (q : String → Bool) (l : List (String × β)) (k : String) :
    (l.filter (fun kv => q kv.1)).lookup k = if q k then l.lookup k else none := by
  induction l with
  | nil => simp
  | cons p rest ih =>
    cases p with
    | mk a b =>
      by_cases hq : q a
      · by_cases hk : k = a
        · subst hk
          simp [List.filter, hq, List.lookup, ih]
        · have hne : (k == a) = false := by simp [beq_eq_false_iff_ne]; exact hk
          simp only [List.filter, hq, List.lookup, hne, ih]
      · by_cases hk : k = a
        · subst hk
          simp only [List.filter, hq]
          simp only [Bool.false_eq_true, if_false] at *
          rw [ih]
          simp [hq]
        · have hne : (k == a) = false := by simp [beq_eq_false_iff_ne]; exact hk
          simp only [List.filter, hq]
          rw [ih]
          simp [List.lookup, hne]

/-! ### Characterizing the final selection build -/

theorem find_setFirst_self (k : String) (v : Bool) (st : List (Record × Bool)) :
    (setFirst k v st).find? (fun p => p.1.barcode == k)
      = (st.find? (fun p => p.1.barcode == k)).map (fun p => (p.1, v)) := by
  induction st with
  | nil => rfl
  | cons p rest ih =>
    obtain ⟨r, b⟩ := p
    by_cases hk : r.barcode == k
    · simp [setFirst, hk, List.find?]
    · simp only [setFirst, hk, Bool.false_eq_true, if_false]
      simp only [List.find?, hk]
      exact ih

theorem find_setFirst_ne {k k' : String} (hne : k' ≠ k) (v : Bool)
    (st : List (Record × Bool)) :
    (setFirst k v st).find? (fun p => p.1.barcode == k')
      = st.find? (fun p => p.1.barcode == k') := by
  induction st with
  | nil => rfl
  | cons p rest ih =>
    obtain ⟨r, b⟩ := p
    by_cases hk : r.barcode == k
    · have hbk : r.barcode = k := by exact eq_of_beq hk
      have hk' : (r.barcode == k') = false := by
        simp [beq_eq_false_iff_ne, hbk]
        exact fun he => hne he.symm
      simp [setFirst, hk, List.find?, hk']
    · simp only [setFirst, hk, Bool.false_eq_true, if_false]
      by_cases hk' : r.barcode == k'
      · simp [List.find?, hk']
      · simp only [List.find?, hk']
        exact ih

theorem getSelected_setFirst_self (k : String) (v : Bool) (st : List (Record × Bool)) :
    getSelected (setFirst k v st) k = (getSelected st k).map (fun _ => v) := by
  simp [getSelected, find_setFirst_self, Option.map_map]
  rfl

theorem getSelected_setFirst_ne {k k' : String} (hne : k' ≠ k) (v : Bool)
    (st : List (Record × Bool)) :
    getSelected (setFirst k v st) k' = getSelected st k' := by
  simp [getSelected, find_setFirst_ne hne]

/-- A dict walked in insertion order over a selection state acts, on the
resolved value of a key, like a single lookup: the (unique) entry for that
key wins, everything else leaves it alone. -/
theorem getSelected_applyOverrideMap (st : List (Record × Bool)) (m : OverrideMap)
    (hm : (m.map Prod.fst).Nodup) (k : String) :
    getSelected (applyOverrideMap st m) k
      = match m.lookup k with
        | some v => (getSelected st k).map (fun _ => v)
        | none => getSelected st k := by
  induction m generalizing st with
  | nil => rfl
  | cons kv rest ih =>
    obtain ⟨k0, v0⟩ := kv
    simp only [List.map_cons, List.nodup_cons] at hm
    obtain ⟨hk0, hrest⟩ := hm
    have step : applyOverrideMap st ((k0, v0) :: rest)
        = applyOverrideMap (setFirst k0 v0 st) rest := rfl
    rw [step, ih _ hrest]
    by_cases hk : k = k0
    · subst hk
      have hlrest : rest.lookup k = none :=
        lookup_eq_none_of_not_mem_keys hk0
      have hl : ((k, v0) :: rest : OverrideMap).lookup k = some v0 := by
        simp [List.lookup]
      rw [hlrest, hl, getSelected_setFirst_self]
    · have hne : (k == k0) = false := by simp [beq_eq_false_iff_ne]; exact hk
      have hl : ((k0, v0) :: rest : OverrideMap).lookup k = rest.lookup k := by
        simp [List.lookup, hne]
      rw [hl, getSelected_setFirst_ne hk]

theorem getSelected_baselineState (records : List Record) (gs : List String) (k : String) :
    getSelected (baselineState records gs) k
      = (records.find? (fun r => r.barcode == k)).map (fun r => gs.contains r.group) := by
  induction records with
  | nil => rfl
  | cons r rest ih =>
    by_cases hk : r.barcode == k
    · simp [getSelected, baselineState, List.find?, hk]
    · simp only [baselineState, List.map_cons] at *
      simp only [getSelected, List.find?, hk] at *
      exact ih

/-- Full characterization of the PHASE 1 final selection build: the resolved
value of key `k` is the three-tier precedence formula (manual edit, else
stored override, else group baseline) evaluated on the record carrying `k`. -/
theorem getSelected_buildFinalSelection (records : List Record) (gs : List String)
    (ov man : OverrideMap)
    (hov : (ov.map Prod.fst).Nodup) (hman : (man.map Prod.fst).Nodup) (k : String) :
    getSelected (buildFinalSelection records gs ov man) k
      = (records.find? (fun r => r.barcode == k)).map (fun r =>
          match man.lookup k with
          | some v => v
          | none =>
            match ov.lookup k with
            | some v => v
            | none => gs.contains r.group) := by
  unfold buildFinalSelection
  rw [getSelected_applyOverrideMap _ man hman k,
    getSelected_applyOverrideMap _ ov hov k, getSelected_baselineState]
  cases hfind : records.find? (fun r => r.barcode == k) with
  | none => cases man.lookup k <;> cases ov.lookup k <;> simp
  | some r => cases man.lookup k <;> cases ov.lookup k <;> simp

/-! ### Commit of manual edits and prune (`app.py` lines 512-536) -/

/-- Python dict assignment `d[k] = v`: an existing entry keeps its position
and gets the new value, a fresh key is appended at the end. -/
def dictInsert (d : OverrideMap) (k : String) (v : Bool) : OverrideMap :=
  if (d.lookup k).isSome then
    d.map (fun kv => if kv.1 == k then (k, v) else kv)
  else d ++ [(k, v)]

/-- Applying the current manual selections into `selection_override`
(`app.py` lines 512-519): each manual edit whose Barcode has a matching row
in the full dataset is written into the override dict; edits with no
matching row are skipped. -/
def commitManual (records : List Record) (override manual : OverrideMap) : OverrideMap :=
  manual.foldl (fun ov kv =>
    if records.any (fun r => r.barcode == kv.1) then dictInsert ov kv.1 kv.2 else ov) override

/-- PHASE 5 prune of redundant overrides (`app.py` lines 521-536): an entry
whose value equals its record's group baseline (`group ∈ selected_groups`)
is deleted; entries whose Barcode has no matching row are kept. -/
def pruneOverride (records : List Record) (selectedGroups : List String)
    (override : OverrideMap) : OverrideMap :=
  override.filter (fun kv =>
    match records.find? (fun r => r.barcode == kv.1) with
    | some r => !(kv.2 == selectedGroups.contains r.group)
    | none => true)

/-! ### Group toggle (`app.py` lines 302-319) -/

/-- The group checkbox handler: add/remove the group from `selected_groups`
per the new checkbox state (Python `list.append` / guarded `list.remove`,
which removes the first occurrence), then delete every override entry whose
record belongs to the toggled group (computed over the full dataset). -/
def onGroupToggle (records : List Record) (group : String) (newState : Bool)
    (selectedGroups : List String) (override : OverrideMap) :
    List String × OverrideMap :=
  let gs :=
    if newState then
      if selectedGroups.contains group then selectedGroups else selectedGroups ++ [group]
    else
      if selectedGroups.contains group then selectedGroups.erase group else selectedGroups
  let groupBarcodes := (records.filter (fun r => r.group == group)).map Record.barcode
  let ov := override.filter (fun kv => !(groupBarcodes.contains kv.1))
  (gs, ov)

/-! ### Purge of stale overrides (`app.py` lines 249-255) -/

/-- PHASE 3: drop every override entry whose Barcode is not among the
Barcodes of the current full dataset. -/
def purgeStale (override : OverrideMap) (validKeys : List String) : OverrideMap :=
  override.filter (fun kv => validKeys.contains kv.1)

/-! ### Barcode validation (`app.py` lines 182-207) -/

/-- Rows flagged by `df['Barcode'].duplicated(keep=False)`: every row whose
Barcode value occurs at least twice in the dataset.  (The `notna` guard of
the source is vacuous here: the DataFrame was loaded with `fillna("")`, so
missing Barcodes read as `""`.) -/
def duplicateBarcodeRows (records : List Record) : List Record :=
  records.filter (fun r => decide (2 ≤ records.countP (fun s => s.barcode == r.barcode)))

/-- Rows with an empty/missing Barcode (`df['Barcode'].isna() | (df['Barcode'] == "")`). -/
def emptyBarcodeRows (records : List Record) : List Record :=
  records.filter (fun r => r.barcode == "")

/-- Outcome of the PHASE 6 upload validation: duplicate Barcodes are
reported first (with the offending rows), then empty Barcodes; otherwise
the dataset is accepted. -/
inductive BarcodeCheck where
  | duplicates (rows : List Record)
  | empties (rows : List Record)
  | ok
deriving Repr, DecidableEq

/-- PHASE 6 validation of `app.py`: `st.stop()` on duplicate Barcodes
(listing the duplicated rows), then on empty Barcodes; only a clean dataset
reaches the selection logic. -/
def validateBarcodes (records : List Record) : BarcodeCheck :=
  let dups := duplicateBarcodeRows records
  if 0 < dups.length then .duplicates dups
  else
    let empties := emptyBarcodeRows records
    if 0 < empties.length then .empties empties
    else .ok

/-- The per-interaction recomputation of `app.py` in order: PHASE 6 barcode
validation stops the script before any selection work; on a valid dataset
the stale overrides are purged (PHASE 3) and the final selection is built
(PHASE 1). -/
def selectionPipeline (records : List Record) (selectedGroups : List String)
    (override manual : OverrideMap) : Option (List (Record × Bool)) :=
  match validateBarcodes records with
  | .ok =>
    some (buildFinalSelection records selectedGroups
      (purgeStale override (records.map Record.barcode)) manual)
  | _ => none

/-! ### Helper lemmas for commit and prune -/

theorem lookup_isSome_of_mem {β : Type} {l : List (String × β)} {k : String} {v : β}
    (h : (k, v) ∈ l) : (l.lookup k).isSome := by
  induction l with
  | nil => simp at h
  | cons p rest ih =>
    obtain ⟨a, b⟩ := p
    by_cases hk : k = a
    · subst hk
      simp [List.lookup]
    · have hne : (k == a) = false := by simp [beq_eq_false_iff_ne]; exact hk
      simp only [List.lookup, hne]
      rcases List.mem_cons.mp h with heq | hmem
      · exact absurd (congrArg Prod.fst heq) hk
      · exact ih hmem

theorem allKV_dictInsert_self (l : OverrideMap) (k : String) (v : Bool) :
    ∀ p ∈ dictInsert l k v, p.1 = k → p.2 = v := by
  intro p hp hpk
  unfold dictInsert at hp
  by_cases hl : (l.lookup k).isSome
  · rw [if_pos hl] at hp
    obtain ⟨q, hq, hqe⟩ := List.mem_map.mp hp
    by_cases hqk : q.1 == k
    · rw [if_pos hqk] at hqe
      exact (congrArg Prod.snd hqe).symm
    · rw [if_neg (by simpa using hqk)] at hqe
      subst hqe
      simp [hpk] at hqk
  · rw [if_neg hl] at hp
    rcases List.mem_append.mp hp with hmem | hsingle
    · have hmem2 : (k, p.2) ∈ l := by
        rw [← hpk, Prod.mk.eta]
        exact hmem
      exact absurd (lookup_isSome_of_mem hmem2) hl
    · have hpe : p = (k, v) := by simpa using hsingle
      rw [hpe]

theorem allKV_dictInsert_ne {l : OverrideMap} {k k' : String} (hne : k' ≠ k) (v' : Bool)
    {v : Bool} (hl : ∀ p ∈ l, p.1 = k → p.2 = v) :
    ∀ p ∈ dictInsert l k' v', p.1 = k → p.2 = v := by
  intro p hp hpk
  unfold dictInsert at hp
  by_cases hs : (l.lookup k').isSome
  · rw [if_pos hs] at hp
    obtain ⟨q, hq, hqe⟩ := List.mem_map.mp hp
    by_cases hqk : q.1 == k'
    · rw [if_pos hqk] at hqe
      have hk'k : k' = k := by rw [← hqe] at hpk; exact hpk
      exact absurd hk'k hne
    · rw [if_neg (by simpa using hqk)] at hqe
      subst hqe
      exact hl _ hq hpk
  · rw [if_neg hs] at hp
    rcases List.mem_append.mp hp with hmem | hsingle
    · exact hl _ hmem hpk
    · have hpe : p = (k', v') := by simpa using hsingle
      rw [hpe] at hpk
      exact absurd hpk hne

theorem allKV_commitManual_aux (records : List Record) (man : OverrideMap)
    (k : String) (v : Bool) (hnotin : k ∉ man.map Prod.fst) :
    ∀ ov : OverrideMap, (∀ p ∈ ov, p.1 = k → p.2 = v) →
      ∀ p ∈ commitManual records ov man, p.1 = k → p.2 = v := by
  induction man with
  | nil => intro ov hov; exact hov
  | cons kv rest ih =>
    intro ov hov
    simp only [List.map_cons, List.mem_cons, not_or] at hnotin
    obtain ⟨hk0, hrest⟩ := hnotin
    have step : commitManual records ov (kv :: rest)
        = commitManual records
            (if records.any (fun r => r.barcode == kv.1) then dictInsert ov kv.1 kv.2 else ov)
            rest := rfl
    rw [step]
    refine ih hrest _ ?_
    by_cases hg : records.any (fun r => r.barcode == kv.1)
    · rw [if_pos hg]
      exact allKV_dictInsert_ne (fun he => hk0 he.symm) kv.2 hov
    · rw [if_neg hg]
      exact hov

/-- After committing the manual edits, every surviving entry for a manually
edited key carries that manual value. -/
theorem allKV_commitManual (records : List Record) (man : OverrideMap)
    (k : String) (v : Bool)
    (hany : records.any (fun r => r.barcode == k) = true) :
    ∀ ov : OverrideMap, (man.map Prod.fst).Nodup → man.lookup k = some v →
      ∀ p ∈ commitManual records ov man, p.1 = k → p.2 = v := by
  induction man with
  | nil =>
    intro ov _ hl
    simp [List.lookup] at hl
  | cons kv rest ih =>
    intro ov hman hl
    obtain ⟨k0, v0⟩ := kv
    simp only [List.map_cons, List.nodup_cons] at hman
    obtain ⟨hk0, hrest⟩ := hman
    have step : commitManual records ov ((k0, v0) :: rest)
        = commitManual records
            (if records.any (fun r => r.barcode == k0) then dictInsert ov k0 v0 else ov)
            rest := rfl
    by_cases hk : k = k0
    · subst hk
      have hv0 : v0 = v := by
        simp [List.lookup] at hl
        exact hl
      rw [step, if_pos hany]
      refine allKV_commitManual_aux records rest k v hk0 _ ?_
      rw [← hv0]
      exact allKV_dictInsert_self ov k v0
    · have hne : (k == k0) = false := by simp [beq_eq_false_iff_ne]; exact hk
      simp only [List.lookup, hne] at hl
      rw [step]
      exact ih _ hrest hl

theorem lookup_filter_none {β : Type} {l : List (String × β)} {k : String}
    {pred : String × β → Bool}
    (h : ∀ p ∈ l, p.1 = k → pred p = false) : (l.filter pred).lookup k = none := by
  induction l with
  | nil => rfl
  | cons p rest ih =>
    have hrest : ∀ q ∈ rest, q.1 = k → pred q = false :=
      fun q hq => h q (List.mem_cons_of_mem _ hq)
    by_cases hp : pred p
    · obtain ⟨a, b⟩ := p
      simp only [List.filter, hp]
      have hak : ¬(a = k) := fun he => by
        have := h (a, b) (List.mem_cons_self _ _) he
        rw [this] at hp
        exact Bool.false_ne_true hp
      have hne : (k == a) = false := by
        simp [beq_eq_false_iff_ne]
        exact fun he => hak he.symm
      simp only [List.lookup, hne]
      exact ih hrest
    · simp only [List.filter, Bool.not_eq_true] at hp
      simp only [List.filter, hp]
      exact ih hrest

/-! ### Permutation invariance helper -/

theorem find_barcode_eq_of_perm {l1 l2 : List Record} (hp : l1.Perm l2)
    (hnd : (l1.map Record.barcode).Nodup) (k : String) :
    l1.find? (fun r => r.barcode == k) = l2.find? (fun r => r.barcode == k) := by
  by_cases hex : ∃ r ∈ l1, r.barcode = k
  · obtain ⟨r, hrmem, hrk⟩ := hex
    have h1 : (l1.find? (fun r => r.barcode == k)).isSome :=
      List.find?_isSome.mpr ⟨r, hrmem, by simp [hrk]⟩
    have h2 : (l2.find? (fun r => r.barcode == k)).isSome :=
      List.find?_isSome.mpr ⟨r, hp.mem_iff.mp hrmem, by simp [hrk]⟩
    obtain ⟨a, ha⟩ := Option.isSome_iff_exists.mp h1
    obtain ⟨b, hb⟩ := Option.isSome_iff_exists.mp h2
    have hak : a.barcode = k := by have := List.find?_some ha; simpa using this
    have hbk : b.barcode = k := by have := List.find?_some hb; simpa using this
    have hamem : a ∈ l1 := List.mem_of_find?_eq_some ha
    have hbmem : b ∈ l1 := hp.mem_iff.mpr (List.mem_of_find?_eq_some hb)
    have hab : a = b := List.inj_on_of_nodup_map hnd hamem hbmem (by rw [hak, hbk])
    rw [ha, hb, hab]
  · push_neg at hex
    have h1 : l1.find? (fun r => r.barcode == k) = none :=
      List.find?_eq_none.mpr (fun x hx => by simpa using hex x hx)
    have h2 : l2.find? (fun r => r.barcode == k) = none :=
      List.find?_eq_none.mpr (fun x hx => by simpa using hex x (hp.mem_iff.mpr hx))
    rw [h1, h2]

/-! ### Claim theorems -/

/-- C1: Resolving the selection for a record with stable key `k` follows
three-tier precedence: the result is the group baseline (its group is in
`selected_groups`), replaced by `override[k]` if `k` is in the override
map, replaced in turn by `manual_edits[k]` if `k` is in the current manual
edits. -/
theorem c1_three_tier_precedence (records : List Record) (gs : List String)
    (ov man : OverrideMap) (k : String) (r : Record)
    (hov : (ov.map Prod.fst).Nodup) (hman : (man.map Prod.fst).Nodup)
    (hr : records.find? (fun s => s.barcode == k) = some r) :
    getSelected (buildFinalSelection records gs ov man) k
      = some (match man.lookup k with
          | some v => v
          | none =>
            match ov.lookup k with
            | some v => v
            | none => gs.contains r.group) := by
  rw [getSelected_buildFinalSelection records gs ov man hov hman k, hr]
  rfl

/-- Scenario A as the witness of C1: three records, groups X (key1, key2)
and Y (key3), group X selected, one manual deselection of key1; the
resolved selection is key1 ↦ false, key2 ↦ true, key3 ↦ false, and the
committed-and-pruned override map is exactly `{key1: false}`. -/
theorem c1_three_tier_precedence_witness :
    getSelected (buildFinalSelection
        [⟨"key1", "X"⟩, ⟨"key2", "X"⟩, ⟨"key3", "Y"⟩] ["X"] [] [("key1", false)]) "key1"
      = some false
    ∧ getSelected (buildFinalSelection
        [⟨"key1", "X"⟩, ⟨"key2", "X"⟩, ⟨"key3", "Y"⟩] ["X"] [] [("key1", false)]) "key2"
      = some true
    ∧ getSelected (buildFinalSelection
        [⟨"key1", "X"⟩, ⟨"key2", "X"⟩, ⟨"key3", "Y"⟩] ["X"] [] [("key1", false)]) "key3"
      = some false
    ∧ pruneOverride [⟨"key1", "X"⟩, ⟨"key2", "X"⟩, ⟨"key3", "Y"⟩] ["X"]
        (commitManual [⟨"key1", "X"⟩, ⟨"key2", "X"⟩, ⟨"key3", "Y"⟩] [] [("key1", false)])
      = [("key1", false)] := by
  refine ⟨?_, by decide, by decide, by decide⟩
  have h := c1_three_tier_precedence
    [⟨"key1", "X"⟩, ⟨"key2", "X"⟩, ⟨"key3", "Y"⟩] ["X"] [] [("key1", false)]
    "key1" ⟨"key1", "X"⟩ (by decide) (by decide) (by decide)
  simpa using h

/-- C2: after commit (applying the current manual edits into the override
map and then pruning), every override entry whose key has a record differs
from that record's pure group baseline; moreover an entry whose manual
value equals the baseline is deleted — showing the prune runs after the
manual edits are applied, not before. -/
theorem c2_commit_prune_invariant (records : List Record) (gs : List String)
    (ov man : OverrideMap) (hman : (man.map Prod.fst).Nodup) :
    (∀ k v, (k, v) ∈ pruneOverride records gs (commitManual records ov man) →
      ∀ r, records.find? (fun s => s.barcode == k) = some r →
        v ≠ gs.contains r.group)
    ∧ (∀ k v r, records.find? (fun s => s.barcode == k) = some r →
        man.lookup k = some v → v = gs.contains r.group →
        (pruneOverride records gs (commitManual records ov man)).lookup k = none) := by
  constructor
  · intro k v hmem r hr
    have hf := (List.mem_filter.mp hmem).2
    simp only at hf
    rw [hr] at hf
    simp only [Bool.not_eq_eq_eq_not, Bool.not_true] at hf
    intro hveq
    rw [hveq] at hf
    simp at hf
  · intro k v r hr hlk hveq
    have hany : records.any (fun s => s.barcode == k) = true := by
      refine List.any_eq_true.mpr ?_
      refine ⟨r, List.mem_of_find?_eq_some hr, ?_⟩
      have := List.find?_some hr
      simpa using this
    have hall := allKV_commitManual records man k v hany ov hman hlk
    refine lookup_filter_none ?_
    intro p hp hpk
    have hv : p.2 = v := hall p hp hpk
    simp only [hpk, hv, hr, hveq]
    simp

/-- Witness for C2: one record in a selected group, a manual edit that
reselects it (equal to its baseline); after commit the prune removes the
entry, leaving an empty override map. -/
theorem c2_commit_prune_invariant_witness :
    (pruneOverride [⟨"k1", "X"⟩] ["X"]
        (commitManual [⟨"k1", "X"⟩] [] [("k1", true)])).lookup "k1" = none
    ∧ pruneOverride [⟨"k1", "X"⟩] ["X"]
        (commitManual [⟨"k1", "X"⟩] [] [("k1", true)]) = [] := by
  refine ⟨?_, by decide⟩
  exact (c2_commit_prune_invariant [⟨"k1", "X"⟩] ["X"] [] [("k1", true)]
    (by decide)).2 "k1" true ⟨"k1", "X"⟩ (by decide) (by decide) (by decide)

/-- C3: after toggling group `g`, the group is in `selected_groups` exactly
when the new state is on, every record belonging to `g` has no override
entry, and the override entry of every record not in `g` is unchanged. -/
theorem c3_group_toggle_rescope (records : List Record) (group : String) (newState : Bool)
    (gs : List String) (ov : OverrideMap)
    (hgs : gs.Nodup) (hrec : (records.map Record.barcode).Nodup) :
    (group ∈ (onGroupToggle records group newState gs ov).1 ↔ newState = true)
    ∧ (∀ r ∈ records, r.group = group →
        (onGroupToggle records group newState gs ov).2.lookup r.barcode = none)
    ∧ (∀ r ∈ records, r.group ≠ group →
        (onGroupToggle records group newState gs ov).2.lookup r.barcode
          = ov.lookup r.barcode) := by
  refine ⟨?_, ?_, ?_⟩
  · simp only [onGroupToggle]
    cases newState with
    | true =>
      by_cases hc : gs.contains group
      · simp only [if_pos hc, if_pos rfl]
        have : group ∈ gs := by
          simpa using hc
        simp [this]
      · simp only [if_pos rfl, if_neg hc]
        simp
    | false =>
      by_cases hc : gs.contains group
      · simp only [if_pos hc]
        have hmem : group ∉ gs.erase group := by
          intro hm
          exact absurd ((hgs.mem_erase_iff.mp hm).1) (by simp)
        simp [hmem]
      · simp only [if_neg hc]
        have : group ∉ gs := by simpa using hc
        simp [this]
  · intro r hrmem hrg
    simp only [onGroupToggle]
    rw [lookup_filter_key (fun key =>
      !((records.filter (fun s => s.group == group)).map Record.barcode).contains key)]
    have hin : ((records.filter (fun s => s.group == group)).map
        Record.barcode).contains r.barcode = true := by
      simp only [List.contains_eq_any_beq, List.any_eq_true]
      refine ⟨r.barcode, List.mem_map.mpr ⟨r, List.mem_filter.mpr ⟨hrmem, by simp [hrg]⟩, rfl⟩,
        by simp⟩
    rw [hin]
    simp
  · intro r hrmem hrg
    simp only [onGroupToggle]
    rw [lookup_filter_key (fun key =>
      !((records.filter (fun s => s.group == group)).map Record.barcode).contains key)]
    have hout : ((records.filter (fun s => s.group == group)).map
        Record.barcode).contains r.barcode = false := by
      by_contra hcon
      have hc : ((records.filter (fun s => s.group == group)).map
          Record.barcode).contains r.barcode = true := by
        revert hcon
        cases ((records.filter (fun s => s.group == group)).map
          Record.barcode).contains r.barcode <;> simp
      simp only [List.contains_eq_any_beq, List.any_eq_true] at hc
      obtain ⟨b, hbmem, hbeq⟩ := hc
      obtain ⟨s, hsmem, hsb⟩ := List.mem_map.mp hbmem
      have hsrec : s ∈ records := (List.mem_filter.mp hsmem).1
      have hsg : s.group = group := by
        have := (List.mem_filter.mp hsmem).2
        simpa using this
      have hsbr : s.barcode = r.barcode := by
        rw [hsb]
        exact (eq_of_beq hbeq).symm
      have : s = r := List.inj_on_of_nodup_map hrec hsrec hrmem hsbr
      rw [← this] at hrg
      exact hrg hsg
    rw [hout]
    simp

/-- Witness for C3: toggling group X off with overrides on both an X record
and a Y record deletes the X record's entry, keeps the Y record's entry,
and removes X from the selected groups. -/
theorem c3_group_toggle_rescope_witness :
    (onGroupToggle [⟨"b1", "X"⟩, ⟨"b2", "Y"⟩] "X" false ["X"]
        [("b1", false), ("b2", true)]).2.lookup "b1" = none
    ∧ (onGroupToggle [⟨"b1", "X"⟩, ⟨"b2", "Y"⟩] "X" false ["X"]
        [("b1", false), ("b2", true)]).2.lookup "b2" = some true
    ∧ ("X" ∈ (onGroupToggle [⟨"b1", "X"⟩, ⟨"b2", "Y"⟩] "X" false ["X"]
        [("b1", false), ("b2", true)]).1 ↔ false = true) := by
  have h := c3_group_toggle_rescope [⟨"b1", "X"⟩, ⟨"b2", "Y"⟩] "X" false ["X"]
    [("b1", false), ("b2", true)] (by decide) (by decide)
  refine ⟨h.2.1 ⟨"b1", "X"⟩ (by decide) rfl, ?_, h.1⟩
  have h2 := h.2.2 ⟨"b2", "Y"⟩ (by decide) (by decide)
  rw [h2]
  decide

/-- C9: resolving the selection is invariant under any permutation of the
dataset's rows — with the same selected groups, override map and manual
edits, every stable key resolves to the same boolean, because all
bookkeeping is keyed by the stable key and never by row position. -/
theorem c9_row_order_invariance (records1 records2 : List Record) (gs : List String)
    (ov man : OverrideMap)
    (hperm : records1.Perm records2)
    (hnd : (records1.map Record.barcode).Nodup)
    (hov : (ov.map Prod.fst).Nodup) (hman : (man.map Prod.fst).Nodup) :
    ∀ k, getSelected (buildFinalSelection records1 gs ov man) k
      = getSelected (buildFinalSelection records2 gs ov man) k := by
  intro k
  rw [getSelected_buildFinalSelection records1 gs ov man hov hman k,
    getSelected_buildFinalSelection records2 gs ov man hov hman k,
    find_barcode_eq_of_perm hperm hnd k]

/-- Witness for C9 at a concrete two-record dataset and its swap. -/
theorem c9_row_order_invariance_witness :
    getSelected (buildFinalSelection [⟨"b1", "X"⟩, ⟨"b2", "Y"⟩] ["Y"]
        [("b1", true)] [("b2", false)]) "b1"
      = getSelected (buildFinalSelection [⟨"b2", "Y"⟩, ⟨"b1", "X"⟩] ["Y"]
        [("b1", true)] [("b2", false)]) "b1" :=
  c9_row_order_invariance [⟨"b1", "X"⟩, ⟨"b2", "Y"⟩] [⟨"b2", "Y"⟩, ⟨"b1", "X"⟩] ["Y"]
    [("b1", true)] [("b2", false)] (by decide) (by decide) (by decide) (by decide) "b1"

theorem purgeStale_keys_nodup {ov : OverrideMap} {validKeys : List String}
    (hov : (ov.map Prod.fst).Nodup) :
    ((purgeStale ov validKeys).map Prod.fst).Nodup := by
  have hsub : List.Sublist (purgeStale ov validKeys) ov := List.filter_sublist ov
  exact (hsub.map Prod.fst).nodup hov

/-- C4: `purge_stale` removes exactly the entries whose key is not in the
current dataset's valid keys, keeping valid entries with their value; and
after a key is removed from the dataset and an unrelated new key added, the
purge-then-resolve pass resolves the new key to its group baseline — the
removed key's old override value is never applied to it. -/
theorem c4_purge_stale_exact (ov : OverrideMap) (validKeys : List String)
    (records : List Record) (gs : List String) (kOld kNew : String) (r : Record)
    (hov : (ov.map Prod.fst).Nodup)
    (hOld : validKeys.contains kOld = false)
    (hNew : ov.lookup kNew = none)
    (hr : records.find? (fun s => s.barcode == kNew) = some r) :
    (∀ k, (purgeStale ov validKeys).lookup k
        = if validKeys.contains k then ov.lookup k else none)
    ∧ (purgeStale ov validKeys).lookup kOld = none
    ∧ getSelected (buildFinalSelection records gs (purgeStale ov validKeys) []) kNew
        = some (gs.contains r.group) := by
  have hchar : ∀ k, (purgeStale ov validKeys).lookup k
      = if validKeys.contains k then ov.lookup k else none := by
    intro k
    exact lookup_filter_key (fun key => validKeys.contains key) ov k
  refine ⟨hchar, ?_, ?_⟩
  · rw [hchar kOld, hOld]
    simp
  · have hpnodup : ((purgeStale ov validKeys).map Prod.fst).Nodup :=
      purgeStale_keys_nodup hov
    rw [getSelected_buildFinalSelection records gs _ [] hpnodup (by simp) kNew, hr]
    have hpnew : (purgeStale ov validKeys).lookup kNew = none := by
      rw [hchar kNew, hNew]
      simp
    simp only [List.lookup, hpnew]
    rfl

/-- Witness for C4: the override of the removed key `gone` is purged and a
fresh record keyed `new` resolves to its baseline. -/
theorem c4_purge_stale_exact_witness :
    (purgeStale [("gone", true)] ["new"]).lookup "gone" = none
    ∧ getSelected (buildFinalSelection [⟨"new", "G"⟩] [] (purgeStale [("gone", true)] ["new"])
        []) "new" = some false := by
  have h := c4_purge_stale_exact [("gone", true)] ["new"] [⟨"new", "G"⟩] [] "gone" "new"
    ⟨"new", "G"⟩ (by decide) (by decide) (by decide) (by decide)
  exact ⟨h.2.1, h.2.2⟩

/-- C6: when two or more rows share the same stable key, or some row has an
empty/missing stable key, the PHASE 6 validation fails before any selection
logic runs: the pipeline produces no selection, and in the duplicate case
every offending row is listed in the reported rows. -/
theorem c6_validation_blocks_selection (records : List Record)
    (h : (∃ b, 2 ≤ records.countP (fun s => s.barcode == b))
        ∨ ∃ r ∈ records, r.barcode = "") :
    validateBarcodes records ≠ .ok
    ∧ (∀ gs ov man, selectionPipeline records gs ov man = none)
    ∧ (∀ r ∈ records, 2 ≤ records.countP (fun s => s.barcode == r.barcode) →
        ∃ rows, validateBarcodes records = .duplicates rows ∧ r ∈ rows) := by
  have hlisted : ∀ r ∈ records, 2 ≤ records.countP (fun s => s.barcode == r.barcode) →
      ∃ rows, validateBarcodes records = .duplicates rows ∧ r ∈ rows := by
    intro r hrmem hcount
    have hrdup : r ∈ duplicateBarcodeRows records :=
      List.mem_filter.mpr ⟨hrmem, by simpa using hcount⟩
    have hpos : 0 < (duplicateBarcodeRows records).length :=
      List.length_pos.mpr (List.ne_nil_of_mem hrdup)
    refine ⟨duplicateBarcodeRows records, ?_, hrdup⟩
    simp only [validateBarcodes, if_pos hpos]
  have hnotok : validateBarcodes records ≠ .ok := by
    rcases h with ⟨b, hb⟩ | ⟨r, hrmem, hrempty⟩
    · have hone : 0 < records.countP (fun s => s.barcode == b) := by omega
      obtain ⟨s, hsmem, hsb⟩ := List.countP_pos_iff.mp hone
      have hsb2 : s.barcode = b := eq_of_beq hsb
      obtain ⟨rows, hrows, _⟩ := hlisted s hsmem (by rw [hsb2]; exact hb)
      rw [hrows]
      intro hcon
      exact BarcodeCheck.noConfusion hcon
    · unfold validateBarcodes
      by_cases hdup : 0 < (duplicateBarcodeRows records).length
      · rw [if_pos hdup]
        intro hcon
        exact BarcodeCheck.noConfusion hcon
      · rw [if_neg hdup]
        have hremp : r ∈ emptyBarcodeRows records :=
          List.mem_filter.mpr ⟨hrmem, by simp [hrempty]⟩
        have hpos : 0 < (emptyBarcodeRows records).length :=
          List.length_pos.mpr (List.ne_nil_of_mem hremp)
        rw [if_pos hpos]
        intro hcon
        exact BarcodeCheck.noConfusion hcon
  refine ⟨hnotok, ?_, hlisted⟩
  intro gs ov man
  unfold selectionPipeline
  cases hv : validateBarcodes records with
  | ok => exact absurd hv hnotok
  | duplicates rows => rfl
  | empties rows => rfl

/-- Witness for C6 (Scenario B): two rows sharing Barcode `B1` make
validation fail, both rows appear in the reported duplicate list, and the
selection pipeline performs no work. -/
theorem c6_validation_blocks_selection_witness :
    validateBarcodes [⟨"B1", "X"⟩, ⟨"B1", "Y"⟩] ≠ .ok
    ∧ selectionPipeline [⟨"B1", "X"⟩, ⟨"B1", "Y"⟩] ["X"] [] [] = none
    ∧ validateBarcodes [⟨"B1", "X"⟩, ⟨"B1", "Y"⟩]
        = .duplicates [⟨"B1", "X"⟩, ⟨"B1", "Y"⟩] := by
  have h := c6_validation_blocks_selection [⟨"B1", "X"⟩, ⟨"B1", "Y"⟩]
    (Or.inl ⟨"B1", by decide⟩)
  exact ⟨h.1, h.2.1 ["X"] [] [], by decide⟩

/-! ### Template placeholders (`utils.py` lines 15, 37-47)

`PLACEHOLDER_RX = re.compile(r"\{\{(\w+)\}\}")` and
`extract_placeholders` returns the set of captured names.  For this
pattern, scanning every position is equivalent to the regex engine's
non-overlapping left-to-right scan: a match consists of `{{`, a maximal
nonempty run of word characters, and `}}`, and no new match can start
strictly inside a match. -/

/-- Python `\w` in the template regex (ASCII range): letters, digits, `_`. -/
def wordChar (c : Char) : Bool := c.isAlpha || c.isDigit || c == '_'

/-- Split a character list into its longest prefix satisfying `p` and the
rest (Python-side: the greedy `\w+` of the regex). -/
def spanChars (p : Char → Bool) : List Char → List Char × List Char
  | [] => ([], [])
  | c :: cs =>
    if p c then
      let x := spanChars p cs
      (c :: x.1, x.2)
    else ([], c :: cs)

/-- All `\{\{(\w+)\}\}` captures of the template, in match order and with
repetitions (the raw `re.findall`). -/
def findPlaceholders : List Char → List String
  | [] => []
  | c :: cs =>
    let rest := findPlaceholders cs
    match c, cs with
    | '\x7b', '\x7b' :: after =>
      match spanChars wordChar after with
      | (w, '\x7d' :: '\x7d' :: _) =>
        if w.isEmpty then rest else String.mk w :: rest
      | _ => rest
    | _, _ => rest

/-- `extract_placeholders` of `utils.py`: the set of placeholder names,
modelled as the duplicate-free list of captures. -/
def extractPlaceholders (xmlContent : String) : List String :=
  (findPlaceholders xmlContent.data).dedup

/-- Python `sorted` on a list of strings (lexicographic code-point order). -/
def sortStrings (l : List String) : List String :=
  l.insertionSort (fun a b => a ≤ b)

/-- Result record of `validate_data` in `utils.py`. -/
structure ValidationResult where
  placeholders : List String
  columns : List String
  missing : List String
  unused : List String
  is_valid : Bool
deriving Repr, DecidableEq

/-- `validate_data` of `utils.py` (lines 164-201): placeholders of the
template against the columns of the first data row; `missing` is the
sorted list of placeholders without a column, `unused` the sorted list of
columns no placeholder uses, and `is_valid` holds when nothing is
missing.  An empty row list yields `is_valid = False` with every
placeholder missing. -/
def validateData (templateXml : String) (dataRows : List Row) : ValidationResult :=
  let placeholders := extractPlaceholders templateXml
  match dataRows with
  | [] =>
    { placeholders := placeholders
      columns := []
      missing := sortStrings placeholders
      unused := []
      is_valid := false }
  | r0 :: _ =>
    let columns := (r0.map Prod.fst).dedup
    let missing := sortStrings (placeholders.filter (fun p => !columns.contains p))
    let unused := sortStrings (columns.filter (fun c => !placeholders.contains c))
    { placeholders := placeholders
      columns := columns
      missing := missing
      unused := unused
      is_valid := missing.length == 0 }

theorem sortStrings_length (l : List String) :
    (sortStrings l).length = l.length :=
  (List.perm_insertionSort (fun a b => a ≤ b) l).length_eq

theorem mem_sortStrings {l : List String} {a : String} :
    a ∈ sortStrings l ↔ a ∈ l :=
  (List.perm_insertionSort (fun a b => a ≤ b) l).mem_iff

theorem contains_eq_true_iff_mem {l : List String} {a : String} :
    l.contains a = true ↔ a ∈ l := by
  simp [List.contains]

/-- C7: for a non-empty row set, validation succeeds exactly when every
placeholder of the template occurs among the data columns; `missing` is
sorted and contains exactly the placeholders with no matching column. -/
theorem c7_validate_data_missing (templateXml : String) (r0 : Row) (rest : List Row) :
    ((validateData templateXml (r0 :: rest)).is_valid = true ↔
      ∀ p ∈ extractPlaceholders templateXml, p ∈ r0.map Prod.fst)
    ∧ (validateData templateXml (r0 :: rest)).missing.Sorted (fun a b => a ≤ b)
    ∧ ∀ p, p ∈ (validateData templateXml (r0 :: rest)).missing ↔
        (p ∈ extractPlaceholders templateXml ∧ p ∉ r0.map Prod.fst) := by
  have hfilter : ∀ p : String,
      ((fun q => !((r0.map Prod.fst).dedup).contains q) p = true)
        ↔ p ∉ r0.map Prod.fst := by
    intro p
    simp only [Bool.not_eq_true']
    constructor
    · intro hc hmem
      rw [(contains_eq_true_iff_mem).mpr (List.mem_dedup.mpr hmem)] at hc
      simp at hc
    · intro hnot
      cases hc : ((r0.map Prod.fst).dedup).contains p with
      | false => rfl
      | true => exact absurd (List.mem_dedup.mp (contains_eq_true_iff_mem.mp hc)) hnot
  have hval : (validateData templateXml (r0 :: rest)).is_valid
      = ((sortStrings ((extractPlaceholders templateXml).filter
          (fun q => !((r0.map Prod.fst).dedup).contains q))).length == 0) := rfl
  have hmiss : (validateData templateXml (r0 :: rest)).missing
      = sortStrings ((extractPlaceholders templateXml).filter
          (fun q => !((r0.map Prod.fst).dedup).contains q)) := rfl
  refine ⟨?_, ?_, ?_⟩
  · rw [hval]
    simp only [beq_iff_eq]
    rw [sortStrings_length, List.length_eq_zero, List.filter_eq_nil_iff]
    constructor
    · intro hnone p hp
      by_contra hnot
      exact hnone p hp ((hfilter p).mpr hnot)
    · intro hall p hp hq
      exact (hfilter p).mp hq (hall p hp)
  · rw [hmiss]
    exact List.sorted_insertionSort (fun a b => a ≤ b) _
  · intro p
    rw [hmiss, mem_sortStrings, List.mem_filter]
    constructor
    · rintro ⟨hp, hq⟩
      exact ⟨hp, (hfilter p).mp hq⟩
    · rintro ⟨hp, hq⟩
      exact ⟨hp, (hfilter p).mpr hq⟩

/-- Witness for C7 (Scenario C): a template with placeholders `{{Code}}`
and `{{Missing}}` against data with only a `Code` column reports
`missing = ["Missing"]` and `is_valid = false`. -/
theorem c7_validate_data_missing_witness :
    (validateData "<T>\x7b\x7bCode\x7d\x7d \x7b\x7bMissing\x7d\x7d</T>"
        [[("Code", "A1")]]).missing = ["Missing"]
    ∧ (validateData "<T>\x7b\x7bCode\x7d\x7d \x7b\x7bMissing\x7d\x7d</T>"
        [[("Code", "A1")]]).is_valid = false
    ∧ ¬ ((validateData "<T>\x7b\x7bCode\x7d\x7d \x7b\x7bMissing\x7d\x7d</T>"
        [[("Code", "A1")]]).is_valid = true ↔ True) := by
  refine ⟨by decide, by decide, ?_⟩
  have h := (c7_validate_data_missing "<T>\x7b\x7bCode\x7d\x7d \x7b\x7bMissing\x7d\x7d</T>"
    [("Code", "A1")] []).1
  intro hcon
  have : ∀ p ∈ extractPlaceholders "<T>\x7b\x7bCode\x7d\x7d \x7b\x7bMissing\x7d\x7d</T>",
      p ∈ ([("Code", "A1")] : Row).map Prod.fst := h.mp (hcon.mpr trivial)
  have hmiss := this "Missing" (by decide)
  simp at hmiss

/-! ### Two-file join (`utils.py` lines 100-161, `merge_product_ean_data`) -/

/-- Join statistics returned by `merge_product_ean_data`. -/
structure MergeStats where
  total : Nat
  matched : Nat
  unmatched : Nat
deriving Repr, DecidableEq

/-- The projected EAN mapping `ean_df[[join_key, ean_column]]`. -/
def eanMappingRows (joinKey eanColumn : String) (eanRows : List Row) : List Row :=
  eanRows.map (fun e => [(joinKey, getCol e joinKey), (eanColumn, getCol e eanColumn)])

/-- `drop_duplicates(subset=[join_key], keep='first')`: keep the first row
for each join-key value. -/
def dropDuplicatesFirst (joinKey : String) : List Row → List String → List Row
  | [], _ => []
  | r :: rs, seen =>
    if seen.contains (getCol r joinKey) then dropDuplicatesFirst joinKey rs seen
    else r :: dropDuplicatesFirst joinKey rs (getCol r joinKey :: seen)

/-- The mapped EAN value of one product row after the left join and the
`fillna` steps: a matching row of the deduplicated mapping contributes its
EAN value; an unmatched row falls back to the product's own value when the
product file already had the EAN column (the `_x`/`_y` suffix branch of the
source), and to `""` otherwise. -/
def mergedEanValue (joinKey eanColumn : String) (hasOwn : Bool) (mapping : List Row)
    (p : Row) : String :=
  match mapping.find? (fun e => getCol e joinKey == getCol p joinKey) with
  | some e => getCol e eanColumn
  | none => if hasOwn then getCol p eanColumn else ""

/-- `merge_product_ean_data` of `utils.py`: validate the key columns,
deduplicate the EAN mapping keeping first matches, left-join it onto the
product rows, fill unmatched values, and compute the statistics
`total`/`matched` (rows whose final EAN value is nonempty)/`unmatched`. -/
def mergeProductEanData (productRows : List Row) (productCols : List String)
    (eanRows : List Row) (eanCols : List String)
    (joinKey eanColumn : String) :
    Except String (List Row × MergeStats) :=
  if !productCols.contains joinKey then
    .error "join key column not found in product file"
  else if !eanCols.contains joinKey then
    .error "join key column not found in EAN file"
  else if !eanCols.contains eanColumn then
    .error "EAN column not found in EAN file"
  else
    let mapping := dropDuplicatesFirst joinKey (eanMappingRows joinKey eanColumn eanRows) []
    let hasOwn := productCols.contains eanColumn
    let merged := productRows.map (fun p =>
      p.filter (fun kv => kv.1 != eanColumn)
        ++ [(eanColumn, mergedEanValue joinKey eanColumn hasOwn mapping p)])
    let total := merged.length
    let matched := merged.countP (fun m => getCol m eanColumn != "")
    .ok (merged, ⟨total, matched, total - matched⟩)

theorem getCol_projected_joinKey (joinKey eanColumn : String) (e : Row) :
    getCol [(joinKey, getCol e joinKey), (eanColumn, getCol e eanColumn)] joinKey
      = getCol e joinKey := by
  simp [getCol, List.lookup]

theorem getCol_projected_eanColumn (joinKey eanColumn : String) (e : Row) :
    getCol [(joinKey, getCol e joinKey), (eanColumn, getCol e eanColumn)] eanColumn
      = getCol e eanColumn := by
  by_cases h : eanColumn = joinKey
  · subst h
    simp [getCol, List.lookup]
  · have hne : (eanColumn == joinKey) = false := by simp [beq_eq_false_iff_ne]; exact h
    simp [getCol, List.lookup, hne]

theorem contains_eq_false_iff_not_mem {l : List String} {a : String} :
    l.contains a = false ↔ a ∉ l := by
  constructor
  · intro h hm
    rw [contains_eq_true_iff_mem.mpr hm] at h
    simp at h
  · intro h
    cases hc : l.contains a with
    | false => rfl
    | true => exact absurd (contains_eq_true_iff_mem.mp hc) h

/-- Finding the first row with a given key in a first-kept deduplication is
the same as finding it in the original list, for keys not yet seen. -/
theorem find_dropDuplicatesFirst (joinKey k : String) :
    ∀ (l : List Row) (seen : List String), seen.contains k = false →
      (dropDuplicatesFirst joinKey l seen).find? (fun e => getCol e joinKey == k)
        = l.find? (fun e => getCol e joinKey == k) := by
  intro l
  induction l with
  | nil => intro seen _; rfl
  | cons r rs ih =>
    intro seen hk
    have hknot : k ∉ seen := contains_eq_false_iff_not_mem.mp hk
    by_cases hs : seen.contains (getCol r joinKey) = true
    · have hrk : (getCol r joinKey == k) = false := by
        simp only [beq_eq_false_iff_ne]
        intro he
        exact hknot (contains_eq_true_iff_mem.mp (he ▸ hs))
      rw [dropDuplicatesFirst, if_pos hs]
      simp only [List.find?, hrk]
      exact ih seen hk
    · rw [dropDuplicatesFirst, if_neg hs]
      by_cases hr : (getCol r joinKey == k) = true
      · simp only [List.find?, hr]
      · have hrf : (getCol r joinKey == k) = false := by
          cases hc : (getCol r joinKey == k) with
          | false => rfl
          | true => exact absurd hc hr
        simp only [List.find?, hrf]
        refine ih (getCol r joinKey :: seen) (contains_eq_false_iff_not_mem.mpr ?_)
        intro hm
        rcases List.mem_cons.mp hm with he | hm2
        · exact (beq_eq_false_iff_ne.mp hrf) he.symm
        · exact hknot hm2

/-- The projection `ean_df[[join_key, ean_column]]` does not change which
row is the first match for a given key. -/
theorem find_eanMappingRows (joinKey eanColumn k : String) (eanRows : List Row) :
    (eanMappingRows joinKey eanColumn eanRows).find? (fun e => getCol e joinKey == k)
      = (eanRows.find? (fun e => getCol e joinKey == k)).map
          (fun e => [(joinKey, getCol e joinKey), (eanColumn, getCol e eanColumn)]) := by
  induction eanRows with
  | nil => rfl
  | cons e es ih =>
    have hstep : eanMappingRows joinKey eanColumn (e :: es)
        = [(joinKey, getCol e joinKey), (eanColumn, getCol e eanColumn)]
          :: eanMappingRows joinKey eanColumn es := rfl
    by_cases he : (getCol e joinKey == k) = true
    · rw [hstep]
      simp only [List.find?, getCol_projected_joinKey, he]
      rfl
    · have hef : (getCol e joinKey == k) = false := by
        cases hc : (getCol e joinKey == k) with
        | false => rfl
        | true => exact absurd hc he
      rw [hstep]
      simp only [List.find?, getCol_projected_joinKey, hef]
      exact ih

theorem getCol_cons_ne {a b : String} {l : Row} {c : String} (h : (c == a) = false) :
    getCol ((a, b) :: l) c = getCol l c := by
  simp [getCol, List.lookup, h]

/-- The rebuilt merged row reads the mapped EAN value at the EAN column. -/
theorem getCol_merged_row (p : Row) (eanColumn v : String) :
    getCol (p.filter (fun kv => kv.1 != eanColumn) ++ [(eanColumn, v)]) eanColumn = v := by
  induction p with
  | nil => simp [getCol, List.lookup]
  | cons kv rest ih =>
    obtain ⟨a, b⟩ := kv
    by_cases hkv : ((a, b).1 != eanColumn) = true
    · have hne : (eanColumn == a) = false := by
        simp only [bne_iff_ne] at hkv
        simp only [beq_eq_false_iff_ne]
        intro he
        exact hkv he.symm
      rw [List.filter_cons_of_pos (by exact hkv), List.cons_append, getCol_cons_ne hne]
      exact ih
    · rw [List.filter_cons_of_neg (by exact hkv)]
      exact ih

/-- The rebuilt merged row preserves every other column of its product row. -/
theorem getCol_merged_row_other (p : Row) (eanColumn v c : String)
    (hc : (c == eanColumn) = false) :
    getCol (p.filter (fun kv => kv.1 != eanColumn) ++ [(eanColumn, v)]) c = getCol p c := by
  induction p with
  | nil => simp [getCol, List.lookup, hc]
  | cons kv rest ih =>
    obtain ⟨a, b⟩ := kv
    by_cases hkv : ((a, b).1 != eanColumn) = true
    · rw [List.filter_cons_of_pos (by exact hkv), List.cons_append]
      by_cases hca : (c == a) = true
      · simp [getCol, List.lookup, hca]
      · have hcaf : (c == a) = false := by
          cases h2 : (c == a) with
          | false => rfl
          | true => exact absurd h2 hca
        rw [getCol_cons_ne hcaf, getCol_cons_ne hcaf]
        exact ih
    · have hae : (a != eanColumn) = false := by
        cases h2 : (a != eanColumn) with
        | false => rfl
        | true => exact absurd h2 hkv
      have ha : (a == eanColumn) = true := by
        simpa [bne] using hae
      have hane : a = eanColumn := eq_of_beq ha
      have hcaf : (c == a) = false := by
        rw [hane]
        exact hc
      rw [List.filter_cons_of_neg (by exact hkv), getCol_cons_ne hcaf]
      exact ih

/-- C8: the two-file join is a left join on the shared key — every product
row is kept (the merged length equals the product row count and every
non-mapped column keeps its value), a duplicated key in the EAN source
contributes only its first match, unmatched product rows receive `""` in
the mapped column, and the statistics satisfy `total = number of product
rows` and `matched + unmatched = total`. -/
theorem c8_left_join_stats (productRows : List Row) (productCols : List String)
    (eanRows : List Row) (eanCols : List String) (joinKey eanColumn : String)
    (hpk : productCols.contains joinKey = true)
    (hek : eanCols.contains joinKey = true)
    (hee : eanCols.contains eanColumn = true)
    (hno : productCols.contains eanColumn = false) :
    ∃ merged stats,
      mergeProductEanData productRows productCols eanRows eanCols joinKey eanColumn
        = .ok (merged, stats)
      ∧ merged.length = productRows.length
      ∧ stats.total = productRows.length
      ∧ stats.matched + stats.unmatched = stats.total
      ∧ (∀ i (hi1 : i < merged.length) (hi2 : i < productRows.length),
          getCol merged[i] eanColumn
            = match eanRows.find? (fun e =>
                getCol e joinKey == getCol productRows[i] joinKey) with
              | some e => getCol e eanColumn
              | none => "")
      ∧ ∀ i (hi1 : i < merged.length) (hi2 : i < productRows.length) (c : String),
          (c == eanColumn) = false → getCol merged[i] c = getCol productRows[i] c := by
  have hok : mergeProductEanData productRows productCols eanRows eanCols joinKey eanColumn
      = .ok (productRows.map (fun p =>
          p.filter (fun kv => kv.1 != eanColumn)
            ++ [(eanColumn, mergedEanValue joinKey eanColumn (productCols.contains eanColumn)
                  (dropDuplicatesFirst joinKey (eanMappingRows joinKey eanColumn eanRows) [])
                  p)]),
        ⟨(productRows.map (fun p =>
            p.filter (fun kv => kv.1 != eanColumn)
              ++ [(eanColumn, mergedEanValue joinKey eanColumn (productCols.contains eanColumn)
                    (dropDuplicatesFirst joinKey (eanMappingRows joinKey eanColumn eanRows) [])
                    p)])).length,
          (productRows.map (fun p =>
            p.filter (fun kv => kv.1 != eanColumn)
              ++ [(eanColumn, mergedEanValue joinKey eanColumn (productCols.contains eanColumn)
                    (dropDuplicatesFirst joinKey (eanMappingRows joinKey eanColumn eanRows) [])
                    p)])).countP (fun m => getCol m eanColumn != ""),
          (productRows.map (fun p =>
            p.filter (fun kv => kv.1 != eanColumn)
              ++ [(eanColumn, mergedEanValue joinKey eanColumn (productCols.contains eanColumn)
                    (dropDuplicatesFirst joinKey (eanMappingRows joinKey eanColumn eanRows) [])
                    p)])).length
            - (productRows.map (fun p =>
                p.filter (fun kv => kv.1 != eanColumn)
                  ++ [(eanColumn, mergedEanValue joinKey eanColumn
                        (productCols.contains eanColumn)
                        (dropDuplicatesFirst joinKey
                          (eanMappingRows joinKey eanColumn eanRows) []) p)])).countP
                (fun m => getCol m eanColumn != "")⟩) := by
    unfold mergeProductEanData
    rw [hpk, hek, hee]
    simp only [Bool.not_true, Bool.false_eq_true, if_false]
  have hnomem : eanColumn ∉ productCols := contains_eq_false_iff_not_mem.mp hno
  refine ⟨_, _, hok, by simp, by simp, Nat.add_sub_cancel' (List.countP_le_length _),
    ?_, ?_⟩
  · intro i hi1 hi2
    simp only [List.getElem_map]
    rw [getCol_merged_row]
    unfold mergedEanValue
    rw [find_dropDuplicatesFirst joinKey (getCol productRows[i] joinKey)
      (eanMappingRows joinKey eanColumn eanRows) [] rfl, find_eanMappingRows]
    cases hfind : eanRows.find? (fun e =>
        getCol e joinKey == getCol productRows[i] joinKey) with
    | none => simp [hnomem]
    | some e => simp [getCol_projected_eanColumn]
  · intro i hi1 hi2 c hc
    simp only [List.getElem_map]
    exact getCol_merged_row_other productRows[i] eanColumn _ c hc

/-- Witness for C8 (Scenario D): 5 product rows, an EAN file matching 3 of
them by `Code`, hence stats `{total: 5, matched: 3, unmatched: 2}` and
empty mapped Barcodes on the two unmatched rows. -/
theorem c8_left_join_stats_witness :
    (∃ merged stats,
      mergeProductEanData
        [[("Code", "P1")], [("Code", "P2")], [("Code", "P3")], [("Code", "P4")],
          [("Code", "P5")]] ["Code"]
        [[("Code", "P1"), ("Barcode", "111")], [("Code", "P2"), ("Barcode", "222")],
          [("Code", "P3"), ("Barcode", "333")]] ["Code", "Barcode"] "Code" "Barcode"
        = .ok (merged, stats)
      ∧ merged.length = 5 ∧ stats.total = 5
      ∧ stats.matched + stats.unmatched = stats.total
      ∧ True)
    ∧ mergeProductEanData
        [[("Code", "P1")], [("Code", "P2")], [("Code", "P3")], [("Code", "P4")],
          [("Code", "P5")]] ["Code"]
        [[("Code", "P1"), ("Barcode", "111")], [("Code", "P2"), ("Barcode", "222")],
          [("Code", "P3"), ("Barcode", "333")]] ["Code", "Barcode"] "Code" "Barcode"
        = .ok ([[("Code", "P1"), ("Barcode", "111")], [("Code", "P2"), ("Barcode", "222")],
            [("Code", "P3"), ("Barcode", "333")], [("Code", "P4"), ("Barcode", "")],
            [("Code", "P5"), ("Barcode", "")]], ⟨5, 3, 2⟩) := by
  constructor
  · obtain ⟨merged, stats, h1, h2, h3, h4, _⟩ := c8_left_join_stats
      [[("Code", "P1")], [("Code", "P2")], [("Code", "P3")], [("Code", "P4")],
        [("Code", "P5")]] ["Code"]
      [[("Code", "P1"), ("Barcode", "111")], [("Code", "P2"), ("Barcode", "222")],
        [("Code", "P3"), ("Barcode", "333")]] ["Code", "Barcode"] "Code" "Barcode"
      (by decide) (by decide) (by decide) (by decide)
    exact ⟨merged, stats, h1, h2, h3, h4, trivial⟩
  · rfl

/-! ### Template filling and filename construction
(`utils.py` lines 204-288, `generate_dymo_files.py` lines 20-39) -/

/-- `xml.sax.saxutils.escape`: replace `&`, `<`, `>` by their entities. -/
def xmlEscape (s : String) : String :=
  String.mk (s.data.foldr (fun c acc =>
    if c == '&' then '&' :: 'a' :: 'm' :: 'p' :: ';' :: acc
    else if c == '<' then '&' :: 'l' :: 't' :: ';' :: acc
    else if c == '>' then '&' :: 'g' :: 't' :: ';' :: acc
    else c :: acc) [])

/-- `fill_template` / `xml_fill`: for each data item, replace every
occurrence of `{{key}}` in the template by the XML-escaped value;
unresolved placeholders stay as literal markers. -/
def fillTemplate (templateXml : String) (data : Row) : String :=
  data.foldl (fun result kv =>
    result.replace ("\x7b\x7b" ++ kv.1 ++ "\x7d\x7d") (xmlEscape kv.2)) templateXml

/-- Python `\s` whitespace (ASCII range). -/
def isSpaceChar (c : Char) : Bool :=
  c == ' ' || c == '\t' || c == '\n' || c == '\r' || c == '\x0b' || c == '\x0c'

/-- A character kept verbatim by `re.sub(r"[^\w\-. ]+", "-", s)`. -/
def allowedFilenameChar (c : Char) : Bool :=
  wordChar c || c == '-' || c == '.' || c == ' '

/-- `re.sub(pattern+, rep, s)` for a single-character class: replace every
maximal run of bad characters with one `rep`. -/
def subRuns (bad : Char → Bool) (rep : Char) : List Char → List Char
  | [] => []
  | c :: cs =>
    if bad c then
      match cs with
      | [] => [rep]
      | c2 :: _ => if bad c2 then subRuns bad rep cs else rep :: subRuns bad rep cs
    else c :: subRuns bad rep cs

/-- Python `str.strip()`: drop leading and trailing whitespace. -/
def pyStrip (s : List Char) : List Char :=
  ((s.dropWhile isSpaceChar).reverse.dropWhile isSpaceChar).reverse

/-- `sanitize_filename` of `utils.py` (identical in the CLI): strip, turn
path separators into `-`, collapse every run of characters outside
`[\w\-. ]` into one `-`, collapse every whitespace run into one `_`,
truncate to 180 characters, and fall back to `"label"` when empty. -/
def sanitizeFilename (filename : String) : String :=
  let s1 := pyStrip filename.data
  let s2 := s1.map (fun c => if c == '/' || c == '\\' || c == ':' then '-' else c)
  let s3 := subRuns (fun c => !allowedFilenameChar c) '-' s2
  let s4 := subRuns isSpaceChar '_' s3
  let s5 := s4.take 180
  if s5.isEmpty then "label" else String.mk s5

/-- One pass of Python `str.format` over the pattern: `\x7b\x7b` and
`\x7d\x7d` are literal braces, `\x7bname\x7d` is replaced by the value
bound to `name`; a name with no binding (Python `KeyError`, caught by
`build_filename`) and a malformed pattern both yield `none`.  Fuel is the
remaining pattern length, always sufficient. -/
def pyFormatAux (data : List (String × String)) : Nat → List Char → Option String
  | 0, _ => none
  | _ + 1, [] => some ""
  | fuel + 1, c :: cs =>
    if c == '\x7b' then
      match cs with
      | '\x7b' :: rest => (pyFormatAux data fuel rest).map (fun t => "\x7b" ++ t)
      | _ =>
        match spanChars (fun ch => ch != '\x7d') cs with
        | (name, '\x7d' :: r2) =>
          match data.lookup (String.mk name) with
          | some v => (pyFormatAux data fuel r2).map (fun t => v ++ t)
          | none => none
        | _ => none
    else if c == '\x7d' then
      match cs with
      | '\x7d' :: rest => (pyFormatAux data fuel rest).map (fun t => "\x7d" ++ t)
      | _ => none
    else (pyFormatAux data fuel cs).map (fun t => String.singleton c ++ t)

/-- `pattern.format(**data)` as used by `build_filename`. -/
def pyFormat (pattern : String) (data : List (String × String)) : Option String :=
  pyFormatAux data (pattern.data.length + 1) pattern.data

/-- `build_filename` of `utils.py` (lines 239-259) and the CLI: format the
pattern over the row (with `i` defaulting to the 1-based row index); on a
failed lookup fall back to `label_<idx>.dymo`; sanitize the result. -/
def buildFilename (pattern : String) (rowData : Row) (rowIndex : Nat) : String :=
  let safeData :=
    if (rowData.lookup "i").isSome then rowData
    else rowData ++ [("i", toString rowIndex)]
  match pyFormat pattern safeData with
  | some name => sanitizeFilename name
  | none => sanitizeFilename ("label_" ++ toString rowIndex ++ ".dymo")

/-- Python list slicing `l[:n]` for an `int` bound: nonnegative bounds
truncate from the front, negative bounds drop `-n` elements from the end
(clamped at zero). -/
def pySliceTo (l : List Row) (n : Int) : List Row :=
  if 0 ≤ n then l.take n.toNat else l.take (l.length - (-n).toNat)

/-- `generate_labels` of `utils.py` (lines 262-288):
`rows_to_process = data_rows[:limit] if limit else data_rows` — Python
truthiness makes both `None` and `0` process every row — then one
`(filename, filled_xml)` pair per row with 1-based indices. -/
def generateLabels (templateXml : String) (dataRows : List Row)
    (filenamePattern : String) (limit : Option Int) : List (String × String) :=
  let rowsToProcess :=
    match limit with
    | some n => if n == 0 then dataRows else pySliceTo dataRows n
    | none => dataRows
  (rowsToProcess.enumFrom 1).map (fun p => (buildFilename filenamePattern p.2 p.1,
    fillTemplate templateXml p.2))

/-! ### The batch CLI (`generate_dymo_files.py`)

`sys.exit(message)` prints the message and exits with status 1;
`sys.exit(0)` exits with status 0.  The outcome type records which exit the
`main` of the CLI took; `completed` carries the validation warnings (the
sorted missing-placeholder names, reported but not fatal) and the number of
files written. -/

inductive CliOutcome where
  | exitMissingTemplate
  | exitMissingData
  | exitEmptyInput
  | exitDryRun (warnings : List String)
  | completed (warnings : List String) (count : Nat)
deriving Repr, DecidableEq

/-- Process exit status of each CLI outcome. -/
def exitCode : CliOutcome → Nat
  | .exitMissingTemplate => 1
  | .exitMissingData => 1
  | .exitEmptyInput => 0
  | .exitDryRun _ => 0
  | .completed _ _ => 0

/-- `main` of `generate_dymo_files.py` (lines 56-112): `read_text` exits
with a message (status 1) on a missing template, `read_rows` likewise on a
missing data file; `--limit` truncates when truthy; empty rows reach
`sys.exit(0)` after a stderr message; missing placeholders are printed as a
warning only; dry-run exits 0 before writing; otherwise one file per row is
written. -/
def cliMain (template : Option String) (data : Option (List Row)) (limit : Option Int)
    (dryRun : Bool) : CliOutcome :=
  match template with
  | none => .exitMissingTemplate
  | some templateXml =>
    match data with
    | none => .exitMissingData
    | some allRows =>
      let rows :=
        match limit with
        | some n => if n == 0 then allRows else pySliceTo allRows n
        | none => allRows
      match rows with
      | [] => .exitEmptyInput
      | r0 :: rest =>
        let needed := extractPlaceholders templateXml
        let cols := (r0.map Prod.fst).dedup
        let missing := sortStrings (needed.filter (fun p => !cols.contains p))
        if dryRun then .exitDryRun missing
        else .completed missing (r0 :: rest).length

/-- C5, counterexample: a batch run with both files present but zero data
rows reaches `sys.exit(0)` — the process exits with status 0, not with a
nonzero status as the claim states. -/
theorem c5_empty_input_exits_zero :
    cliMain (some "t") (some []) none false = CliOutcome.exitEmptyInput
    ∧ exitCode (cliMain (some "t") (some []) none false) = 0 :=
  ⟨rfl, rfl⟩

/-- C5 (amended): the CLI exits with a nonzero status on a missing template
or missing data file; on empty input it aborts before any generation but
with exit status 0; validation warnings about unmatched placeholders are
reported but never abort, and generation produces one file for every row. -/
theorem c5_cli_exit_behavior :
    (∀ d l dr, cliMain none d l dr = CliOutcome.exitMissingTemplate
      ∧ exitCode (cliMain none d l dr) ≠ 0)
    ∧ (∀ t l dr, cliMain (some t) none l dr = CliOutcome.exitMissingData
      ∧ exitCode (cliMain (some t) none l dr) ≠ 0)
    ∧ (∀ t l dr, cliMain (some t) (some []) l dr = CliOutcome.exitEmptyInput
      ∧ exitCode (cliMain (some t) (some []) l dr) = 0)
    ∧ (∀ t r0 rest, ∃ w, cliMain (some t) (some (r0 :: rest)) none false
        = CliOutcome.completed w (r0 :: rest).length) := by
  refine ⟨fun d l dr => ⟨rfl, by simp [cliMain, exitCode]⟩,
    fun t l dr => ⟨rfl, by simp [cliMain, exitCode]⟩,
    fun t l dr => ?_, fun t r0 rest => ⟨_, rfl⟩⟩
  have hrows : (match l with
      | some n => if n == 0 then ([] : List Row) else pySliceTo [] n
      | none => ([] : List Row)) = [] := by
    cases l with
    | none => rfl
    | some n =>
      by_cases hn : n == 0
      · simp [hn]
      · simp [hn, pySliceTo]
  constructor
  · show (match (match l with
        | some n => if n == 0 then ([] : List Row) else pySliceTo [] n
        | none => ([] : List Row)) with
      | [] => CliOutcome.exitEmptyInput
      | r0 :: rest => _) = CliOutcome.exitEmptyInput
    rw [hrows]
  · show exitCode (match (match l with
        | some n => if n == 0 then ([] : List Row) else pySliceTo [] n
        | none => ([] : List Row)) with
      | [] => CliOutcome.exitEmptyInput
      | r0 :: rest => _) = 0
    rw [hrows]
    rfl

/-- C10: a row limit of 0 behaves exactly like no limit — Python's
`if limit:` / `data_rows[:limit] if limit else data_rows` treat 0 as
falsy — both in `generate_labels` and in the CLI truncation. -/
theorem c10_limit_zero_means_all (templateXml : String) (dataRows : List Row)
    (filenamePattern : String) :
    generateLabels templateXml dataRows filenamePattern (some 0)
      = generateLabels templateXml dataRows filenamePattern none
    ∧ ∀ template data dr, cliMain template data (some 0) dr
        = cliMain template data none dr := by
  constructor
  · rfl
  · intro template data dr
    cases template with
    | none => rfl
    | some t =>
      cases data with
      | none => rfl
      | some rows => rfl

end Dymo
